import Mathlib

/-!
Verification of the persistent key-value store (`src/ut_components/kv.py`)
and the memoization layer (`src/ut_components/memoize.py`).

Modelling choices, stated once:

* Values are JSON values.  `Json`/`JsonArr`/`JsonObj` is a mutual inductive
  family isomorphic to the usual nested presentation; the mutual form keeps
  every function structurally recursive, hence kernel-reducible.
* The SQLite table `kv (key TEXT PRIMARY KEY, value TEXT, ttl INTEGER)` is a
  list of `Row`s in rowid (scan) order.  The `value` column always holds the
  text `dumps w` for the JSON value `w` that was serialized into it; we carry
  `w` itself in the row and recover the column text with `dumps`.  This is
  faithful because `json.loads` is a left inverse of `json.dumps` and every
  write in the module goes through `json.dumps`.  Places where the code
  inspects the raw column text (the `if not result` truthiness test in
  `KV.get`, the `ORDER BY value` in `KV.get_partial`) are modelled on
  `dumps w` explicitly.
* `dumps` reproduces Python's `json.dumps` with its default options
  (separators `", "` and `": "`, `ensure_ascii=True`).
* Wall-clock time is an integer number of seconds (`datetime.now().timestamp()`
  truncated by `int(...)`), passed explicitly to each operation.
* SQLite's `LIKE` (used by `get_partial` and `delete_partial` as
  `key LIKE ? || '%'`) is ASCII-case-insensitive and interprets `%`/`_` in
  the bound prefix as wildcards; `likeMatchL` implements that semantics.
* `INSERT OR REPLACE` deletes the conflicting row and appends the fresh row
  with a new (maximal) rowid: `insertOrReplace`.
-/

mutual
inductive Json where
  | null
  | bool (b : Bool)
  | int (n : Int)
  | str (s : String)
  | arr (xs : JsonArr)
  | obj (fs : JsonObj)
inductive JsonArr where
  | nil
  | cons (hd : Json) (tl : JsonArr)
inductive JsonObj where
  | nil
  | cons (k : String) (v : Json) (tl : JsonObj)
end

/-- Field lookup on a JSON object, i.e. Python's `dict.get(k)` on a parsed
object (objects produced by `json.loads` have distinct keys, so first-match
lookup is exact). -/
def jsonObjGet : JsonObj → String → Option Json
  | .nil, _ => none
  | .cons k v tl, key => if k = key then some v else jsonObjGet tl key

/-- One hexadecimal digit, lowercase, as produced by Python's `\uXXXX`
escapes. -/
def hexDigit (n : Nat) : Char :=
  Char.ofNat (if n < 10 then 48 + n else 87 + n)

/-- Four-digit lowercase hexadecimal rendering of `n < 65536`. -/
def hex4 (n : Nat) : String :=
  ⟨[hexDigit (n / 4096 % 16), hexDigit (n / 256 % 16),
    hexDigit (n / 16 % 16), hexDigit (n % 16)]⟩

/-- Escape one character the way CPython's
`json.encoder.py_encode_basestring_ascii` does (`ensure_ascii=True`):
the two-character escapes for `"` `\` and common control characters,
`\uXXXX` for other controls and all non-ASCII, surrogate pairs above
the BMP. -/
def escapeChar (c : Char) : String :=
  if c = '"' then "\\\""
  else if c = '\\' then "\\\\"
  else if c = '\n' then "\\n"
  else if c = '\r' then "\\r"
  else if c = '\t' then "\\t"
  else if c.toNat = 8 then "\\b"
  else if c.toNat = 12 then "\\f"
  else if c.toNat < 32 || 126 < c.toNat then
    if c.toNat < 65536 then "\\u" ++ hex4 c.toNat
    else
      "\\u" ++ hex4 (55296 + (c.toNat - 65536) / 1024) ++
        "\\u" ++ hex4 (56320 + (c.toNat - 65536) % 1024)
  else String.singleton c

/-- A JSON string literal as serialized by `json.dumps`. -/
def dumpsString (s : String) : String :=
  "\"" ++ String.join (s.data.map escapeChar) ++ "\""

mutual
/-- Python's `json.dumps` with its default options: item separator `", "`,
key separator `": "`, `ensure_ascii=True`. -/
def dumps : Json → String
  | .null => "null"
  | .bool b => cond b "true" "false"
  | .int n => toString n
  | .str s => dumpsString s
  | .arr xs => "[" ++ dumpsArr xs ++ "]"
  | .obj fs => "\x7b" ++ dumpsObj fs ++ "\x7d"
def dumpsArr : JsonArr → String
  | .nil => ""
  | .cons x .nil => dumps x
  | .cons x tl => dumps x ++ ", " ++ dumpsArr tl
def dumpsObj : JsonObj → String
  | .nil => ""
  | .cons k v .nil => dumpsString k ++ ": " ++ dumps v
  | .cons k v tl => dumpsString k ++ ": " ++ dumps v ++ ", " ++ dumpsObj tl
end

/-- Python truthiness (`bool(x)`) of a decoded JSON value: `None`, `False`,
`0`, `""`, `[]` and `{}` are falsy. -/
def pyFalsy : Json → Bool
  | .null => true
  | .bool b => !b
  | .int n => n == 0
  | .str s => s.isEmpty
  | .arr .nil => true
  | .arr _ => false
  | .obj .nil => true
  | .obj _ => false

/-- One row of the `kv` table, in rowid order inside a `List Row`.
`value` is the JSON value whose `dumps`-text sits in the TEXT column;
`ttl` is the nullable absolute expiry instant in integer seconds. -/
structure Row where
  key : String
  value : Json
  ttl : Option Int

namespace KV

/-- Model of `KV._encode_value`: `json.dumps({"value": value})`.  The stored column
text is `dumps (encode_value v)`. -/
def encode_value (value : Json) : Json :=
  Json.obj (.cons "value" value .nil)

/-- Model of `KV._decode_value`: `json.loads(value).get("value", None)`.  Rows written
by this module always hold a JSON object, so the non-object branch is
unreachable for reachable states. -/
def decode_value : Json → Json
  | .obj fs => (jsonObjGet fs "value").getD .null
  | _ => .null

/-- The SQL filter `ttl IS NULL OR ttl > now_seconds`. -/
def liveAt (now : Int) : Option Int → Bool
  | none => true
  | some e => now < e

/-- The expiry instant computed by `put`/`put_cached`:
`if ttl_seconds: ttl = now + ttl_seconds else: ttl = None`.
Python truthiness makes `ttl_seconds=0` behave like `None`. -/
def putExp (ttl_seconds : Option Int) (now : Int) : Option Int :=
  match ttl_seconds with
  | none => none
  | some n => if n = 0 then none else some (now + n)

/-- Semantics of `INSERT OR REPLACE INTO kv ... VALUES (?, ?, ?)`: the conflicting row (if
any) is deleted and the new row is inserted with a fresh maximal rowid. -/
def insertOrReplace (st : List Row) (r : Row) : List Row :=
  st.filter (fun q => !(q.key == r.key)) ++ [r]

/-- Model of `KV.put`: serialize, compute the expiry from `ttl_seconds`, insert or
replace, commit.  `now` is `int(datetime.now().timestamp())` at call time. -/
def put (st : List Row) (key : String) (value : Json) (ttl_seconds : Option Int)
    (now : Int) : List Row :=
  insertOrReplace st ⟨key, encode_value value, putExp ttl_seconds now⟩

/-- The row predicate of `SELECT value FROM kv WHERE key = ? AND
(ttl IS NULL OR ttl > ?)`. -/
def keyLive (key : String) (now : Int) (r : Row) : Bool :=
  r.key == key && liveAt now r.ttl

/-- Model of `KV.get`.  Returns the value handed back to the caller together with the
table afterwards (the table changes only on the `save_default_if_not_set`
path).  `result` is the raw column text of the first matching row; the code
tests `if not result:` on that text, which is falsy exactly when it is the
empty string, and otherwise decodes it. -/
def get (st : List Row) (key : String) (default : Json)
    (save_default_if_not_set : Bool) (now : Int) : Json × List Row :=
  match st.find? (keyLive key now) with
  | some r =>
      if dumps r.value = "" then
        if save_default_if_not_set then (default, put st key default none now)
        else (default, st)
      else (decode_value r.value, st)
  | none =>
      if save_default_if_not_set then (default, put st key default none now)
      else (default, st)

end KV

/-- ASCII-only lowercase folding used by SQLite's default `LIKE`: the
codepoint of `c` with `A`-`Z` mapped to `a`-`z`. -/
def lowerNat (c : Char) : Nat :=
  if 65 ≤ c.toNat && c.toNat ≤ 90 then c.toNat + 32 else c.toNat

/-- Character match of SQLite's default (case-insensitive for ASCII)
`LIKE`. -/
def likeCharEq (c d : Char) : Bool :=
  lowerNat c == lowerNat d

/-- All suffixes of a list, longest first. -/
def tailsL : List Char → List (List Char)
  | [] => [[]]
  | c :: s => (c :: s) :: tailsL s

/-- SQLite's default `LIKE` pattern matcher: `%` matches any (possibly
empty) run, `_` matches exactly one character, other characters match
ASCII-case-insensitively.  No `ESCAPE` clause is in effect in the source. -/
def likeMatchL : List Char → List Char → Bool
  | [], s => s.isEmpty
  | c :: ps, s =>
    if c = '%' then (tailsL s).any (fun t => likeMatchL ps t)
    else
      match s with
      | [] => false
      | d :: ss => (c = '_' || likeCharEq c d) && likeMatchL ps ss

/-- The `key LIKE ? || '%'` filter with the bound parameter `p`. -/
def rowLike (p : String) (r : Row) : Bool :=
  likeMatchL (p.data ++ ['%']) r.key.data

namespace KV

/-- The rows produced by `SELECT key, value FROM kv WHERE key LIKE ? || '%'
AND (ttl IS NULL OR ttl > ?) ORDER BY value`: filter, then sort by the raw
column text (SQLite's BINARY collation on UTF-8 agrees with codepoint order,
i.e. with `String`'s order). -/
def get_partial_rows (st : List Row) (beginning : String) (now : Int) : List Row :=
  List.insertionSort (fun a b => dumps a.value ≤ dumps b.value)
    (st.filter (fun r => rowLike beginning r && liveAt now r.ttl))

/-- Model of `KV.get_partial`: the rows above with each value decoded. -/
def get_partial (st : List Row) (beginning : String) (now : Int) :
    List (String × Json) :=
  (get_partial_rows st beginning now).map (fun r => (r.key, decode_value r.value))

/-- Model of `KV.delete`: `DELETE FROM kv WHERE key = ?`. -/
def delete (st : List Row) (key : String) : List Row :=
  st.filter (fun r => !(r.key == key))

/-- Model of `KV.delete_partial`: `DELETE FROM kv WHERE key like ? || '%'`. -/
def delete_partial (st : List Row) (beginning : String) : List Row :=
  st.filter (fun r => !(rowLike beginning r))

/-- Model of `KV.put_cached`: append the encoded triple to the in-memory buffer;
durable storage is untouched.  (`cache_values` is kept flat in the source
with `cache_row_count` counting rows; a list of triples is the same data.) -/
def put_cached (cache : List Row) (key : String) (value : Json)
    (ttl_seconds : Option Int) (now : Int) : List Row :=
  cache ++ [⟨key, encode_value value, putExp ttl_seconds now⟩]

end KV

/-- Errors surfaced to callers (§7 of the spec): a failed multi-row insert
and a `json.dumps` serialization failure. -/
inductive KVErr where
  | storageWriteError
  | serializationError
deriving DecidableEq

namespace KV

/-- Model of `KV.commit_cached`.  With an empty buffer it returns before touching the
database.  Otherwise one multi-row `INSERT OR REPLACE` runs: `ok = true`
models the backing engine accepting the transaction (rows applied in order,
later duplicates replacing earlier ones), after which the buffer is cleared;
`ok = false` models the execute raising, in which case the assignments that
clear the buffer are never reached and the transaction leaves the table
unchanged.  Returns (error?, table, buffer). -/
def commit_cached (ok : Bool) (st : List Row) (cache : List Row) :
    Option KVErr × List Row × List Row :=
  if cache.isEmpty then (none, st, cache)
  else if ok then (none, cache.foldl insertOrReplace st, [])
  else (some .storageWriteError, st, cache)

end KV

/-- A Python value as seen by the memoize wrapper: either representable in
JSON or an object `json.dumps` rejects (`nonjson` stands for any such
object). -/
inductive PyVal where
  | js (j : Json)
  | nonjson (n : Nat)

/-- The composite cache key `"memoize." + fnHash + "." + argHash` built by the
wrapper from `hash_function_name` and `hash_function_args` (the two SHA1 hex
digests are abstracted as the strings `fnKey` and `argKey`). -/
def memoKey (fnKey argKey : String) : String :=
  "memoize." ++ fnKey ++ "." ++ argKey

/-- One invocation of a function wrapped by `memoize(ttl_seconds)`, the
wrapped function's behaviour on the given arguments abstracted as its return
value `fret`.  Faithful to the wrapper body: `response = kv.get(key)`;
`if response is not None: return response`; otherwise invoke the function,
`kv.put(key, result, ttl_seconds=ttl_seconds)` (which raises
`serializationError` from `json.dumps` before touching the table when the
result is not JSON-representable — there is no exception handler in the
wrapper, so the error propagates and nothing is returned), then return the
result.  Produces (returned value, whether the wrapped function was invoked,
table afterwards). -/
def memoizeCall (fnKey argKey : String) (fret : PyVal) (ttl_seconds : Int)
    (now : Int) (st : List Row) : Except KVErr (PyVal × Bool × List Row) :=
  match (KV.get st (memoKey fnKey argKey) .null false now).1 with
  | .null =>
      match fret with
      | .js j => .ok (.js j, true, KV.put st (memoKey fnKey argKey) j (some ttl_seconds) now)
      | .nonjson _ => .error .serializationError
  | r => .ok (.js r, false, st)

/-- Model of `delete_memoized`: a prefix delete on the wrapped function's namespace. -/
def delete_memoized (fnKey : String) (st : List Row) : List Row :=
  KV.delete_partial st ("memoize." ++ fnKey)

/-! ### Helper lemmas -/

open KV

theorem dumps_obj_ne_empty (fs : JsonObj) : dumps (Json.obj fs) ≠ "" := by
  intro h
  have h2 := congrArg String.data h
  rw [show dumps (Json.obj fs) = "\x7b" ++ dumpsObj fs ++ "\x7d" from rfl] at h2
  simp [String.data_append] at h2

theorem decode_encode (v : Json) : decode_value (encode_value v) = v := rfl

theorem find?_filter_of_imp (l : List Row) (p q : Row → Bool)
    (h : ∀ r, p r = true → q r = true) :
    (l.filter q).find? p = l.find? p := by
  induction l with
  | nil => rfl
  | cons x l ih =>
    cases hq : q x with
    | true =>
      rw [List.filter_cons_of_pos hq]
      cases hp : p x with
      | true => rw [List.find?_cons_of_pos _ hp, List.find?_cons_of_pos _ hp]
      | false =>
        rw [List.find?_cons_of_neg _ (by simp [hp]),
          List.find?_cons_of_neg _ (by simp [hp]), ih]
    | false =>
      have hp : p x = false := by
        cases hpx : p x
        · rfl
        · rw [h x hpx] at hq
          exact absurd hq (by simp)
      rw [List.filter_cons_of_neg (by simp [hq]),
        List.find?_cons_of_neg _ (by simp [hp]), ih]

theorem find?_insertOrReplace_self (st : List Row) (r : Row) (p : Row → Bool)
    (h : ∀ x, p x = true → x.key = r.key) :
    (insertOrReplace st r).find? p = if p r then some r else none := by
  unfold insertOrReplace
  rw [List.find?_append]
  have hnone : (st.filter (fun q => !(q.key == r.key))).find? p = none := by
    apply List.find?_eq_none.mpr
    intro x hx hpx
    rcases List.mem_filter.mp hx with ⟨_, hx2⟩
    simp only [Bool.not_eq_true', beq_eq_false_iff_ne] at hx2
    exact hx2 (h x hpx)
  rw [hnone]
  cases hp : p r <;> simp [List.find?, hp]

theorem find?_insertOrReplace_other (st : List Row) (r : Row) (p : Row → Bool)
    (h : ∀ x, p x = true → x.key ≠ r.key) :
    (insertOrReplace st r).find? p = st.find? p := by
  unfold insertOrReplace
  rw [List.find?_append]
  rw [find?_filter_of_imp st p _ (fun x hx => by
    simp only [Bool.not_eq_true', beq_eq_false_iff_ne]
    exact h x hx)]
  have hpr : p r = false := by
    cases hp : p r
    · rfl
    · exact absurd rfl (h r hp)
  cases hf : st.find? p <;> simp [List.find?, hpr]

theorem keyLive_key (k : String) (t : Int) (x : Row) (h : keyLive k t x = true) :
    x.key = k := by
  unfold keyLive at h
  exact eq_of_beq (Bool.and_elim_left h)

/-- Master lemma: reading back the key just written by `put`. -/
theorem get_put (st : List Row) (k : String) (v : Json) (ts : Option Int)
    (now t : Int) (D : Json) (b : Bool) :
    KV.get (KV.put st k v ts now) k D b t =
      if liveAt t (putExp ts now) then (v, KV.put st k v ts now)
      else if b then (D, KV.put (KV.put st k v ts now) k D none t)
      else (D, KV.put st k v ts now) := by
  have hfind := find?_insertOrReplace_self st ⟨k, encode_value v, putExp ts now⟩
    (keyLive k t) (fun x hx => keyLive_key k t x hx)
  have hkl : keyLive k t ⟨k, encode_value v, putExp ts now⟩ = liveAt t (putExp ts now) := by
    simp [keyLive]
  rw [hkl] at hfind
  show KV.get (insertOrReplace st ⟨k, encode_value v, putExp ts now⟩) k D b t = _
  unfold KV.get
  rw [hfind]
  cases hl : liveAt t (putExp ts now)
  · simp only [Bool.false_eq_true, if_false]
    rfl
  · simp only [if_true]
    rw [if_neg (by exact dumps_obj_ne_empty (JsonObj.cons "value" v .nil))]
    rfl

theorem likeCharEq_refl (c : Char) : likeCharEq c c = true := by
  simp [likeCharEq]

theorem self_mem_tailsL (s : List Char) : s ∈ tailsL s := by
  cases s <;> simp [tailsL]

theorem nil_mem_tailsL (s : List Char) : [] ∈ tailsL s := by
  induction s with
  | nil => simp [tailsL]
  | cons c s ih => simp [tailsL, ih]

theorem any_tailsL_nil (s : List Char) :
    (tailsL s).any (fun t => likeMatchL [] t) = true := by
  induction s with
  | nil => rfl
  | cons c s ih => simp [tailsL, List.any_cons, ih]

/-- A key that literally starts with `p` always matches the pattern
`p ++ "%"` (so `LIKE` never omits a true prefix match). -/
theorem likeMatch_of_prefix (p s : List Char) (h : p.isPrefixOf s = true) :
    likeMatchL (p ++ ['%']) s = true := by
  induction p generalizing s with
  | nil =>
    show likeMatchL ('%' :: []) s = true
    simp only [likeMatchL, if_pos rfl]
    apply List.any_eq_true.mpr
    exact ⟨[], nil_mem_tailsL s, rfl⟩
  | cons a p ih =>
    cases s with
    | nil => simp [List.isPrefixOf] at h
    | cons b s2 =>
      simp only [List.isPrefixOf, Bool.and_eq_true, beq_iff_eq] at h
      obtain ⟨hab, hps⟩ := h
      subst hab
      by_cases hap : a = '%'
      · subst hap
        show likeMatchL ('%' :: (p ++ ['%'])) ('%' :: s2) = true
        simp only [likeMatchL, if_pos rfl]
        apply List.any_eq_true.mpr
        refine ⟨s2, ?_, ih s2 hps⟩
        simp [tailsL, self_mem_tailsL]
      · show likeMatchL (a :: (p ++ ['%'])) (a :: s2) = true
        simp [likeMatchL, hap, likeCharEq_refl, ih s2 hps]

theorem string_append_cancel_left (a b c : String) (h : a ++ b = a ++ c) : b = c := by
  have hd := congrArg String.data h
  simp only [String.data_append] at hd
  have h2 := List.append_cancel_left hd
  obtain ⟨bd⟩ := b
  obtain ⟨cd⟩ := c
  exact congrArg String.mk (by simpa using h2)

/-- A `put` under one key does not change what `get` (without the
save-default flag) returns for a different key. -/
theorem get_other_of_put (st : List Row) (k k2 : String) (v : Json)
    (ts : Option Int) (now t : Int) (D : Json) (hne : k2 ≠ k) :
    (KV.get (KV.put st k v ts now) k2 D false t).1 = (KV.get st k2 D false t).1 := by
  have hfind := find?_insertOrReplace_other st ⟨k, encode_value v, putExp ts now⟩
    (keyLive k2 t) (fun x hx => by rw [keyLive_key k2 t x hx]; exact hne)
  show (KV.get (insertOrReplace st ⟨k, encode_value v, putExp ts now⟩) k2 D false t).1 = _
  unfold KV.get
  rw [hfind]
  cases hf : st.find? (keyLive k2 t)
  · rfl
  · rename_i r
    by_cases hr : dumps r.value = "" <;> simp [hr]

theorem putExp_pos (s now : Int) (hs : s ≠ 0) :
    putExp (some s) now = some (now + s) := by
  simp [putExp, hs]

instance : IsTotal Row (fun a b : Row => dumps a.value ≤ dumps b.value) :=
  ⟨fun x y => le_total (dumps x.value) (dumps y.value)⟩

instance : IsTrans Row (fun a b : Row => dumps a.value ≤ dumps b.value) :=
  ⟨fun _ _ _ hab hbc => le_trans hab hbc⟩

/-! ### Claim theorems -/

/-- C1: for every key `k`, JSON value `v` and `ttl > 0`, after
`put(k, v, ttl)` an immediate `get(k)` returns `v`, and at or past the
computed expiry instant `now + ttl`, `get(k, default=D)` returns `D` for
every default `D`. -/
theorem put_get_ttl_spec (st : List Row) (k : String) (v : Json) (s : Int)
    (now t : Int) (D : Json) (hs : 0 < s) (ht : now + s ≤ t) :
    (KV.get (KV.put st k v (some s) now) k .null false now).1 = v ∧
    (KV.get (KV.put st k v (some s) now) k D false t).1 = D := by
  have hexp := putExp_pos s now (by omega)
  constructor
  · rw [get_put, hexp]
    rw [show liveAt now (some (now + s)) = true by simp [liveAt]; omega]
    simp
  · rw [get_put, hexp]
    rw [show liveAt t (some (now + s)) = false by simp [liveAt]; omega]
    simp

theorem put_get_ttl_spec_witness :
    (KV.get (KV.put [] "k" (.int 7) (some 60) 100) "k" .null false 100).1 = .int 7 ∧
    (KV.get (KV.put [] "k" (.int 7) (some 60) 100) "k" (.str "d") false 160).1 = .str "d" :=
  put_get_ttl_spec [] "k" (.int 7) 60 100 160 (.str "d") (by norm_num) (by norm_num)

/-- C3 counterexample: storing the falsy value `0` and reading it back with
a default and `save_default_if_not_set=true` returns the stored `0`, not the
default, and leaves the table unchanged — the absence test is on the raw
serialized text (never empty for a stored row), not on the decoded value. -/
theorem get_stored_falsy_cex :
    KV.get (KV.put [] "k" (.int 0) none 0) "k" (.str "d") true 5
      = (Json.int 0, KV.put [] "k" (.int 0) none 0) := rfl

/-- C3 amended: a key holding an explicitly stored falsy value (`0`, `""`,
`false`, ...) is NOT treated as absent by
`get(k, default=D, save_default_if_not_set=b)`: the stored value itself is
returned and the table is left unchanged for every `D` and `b`, because the
code's absence test is truthiness of the serialized row text, which is
non-empty for every stored value. -/
theorem get_stored_falsy_spec (st : List Row) (k : String) (v D : Json)
    (b : Bool) (now t : Int) (_hv : pyFalsy v = true) :
    KV.get (KV.put st k v none now) k D b t = (v, KV.put st k v none now) := by
  rw [get_put]
  simp [putExp, liveAt]

theorem get_stored_falsy_spec_witness :
    pyFalsy (.int 0) = true ∧
    KV.get (KV.put [] "k" (.int 0) none 0) "k" (.str "d") true 5
      = (Json.int 0, KV.put [] "k" (.int 0) none 0) :=
  ⟨rfl, get_stored_falsy_spec [] "k" (.int 0) (.str "d") true 0 5 rfl⟩

/-- C8: for an absent (or expired) key, `get(k, default=D,
save_default_if_not_set=true)` returns `D` and writes `D` back under `k`
with no TTL, so a subsequent plain `get(k)` returns `D` at every later
time. -/
theorem get_save_default_spec (st : List Row) (k : String) (D : Json)
    (now t : Int) (habs : st.find? (keyLive k now) = none) :
    KV.get st k D true now = (D, KV.put st k D none now) ∧
    (KV.get (KV.put st k D none now) k .null false t).1 = D := by
  constructor
  · unfold KV.get
    rw [habs]
    rfl
  · rw [get_put]
    simp [putExp, liveAt]

theorem get_save_default_spec_witness :
    KV.get [] "missing" (.str "x") true 0 = ((.str "x"), KV.put [] "missing" (.str "x") none 0) ∧
    (KV.get (KV.put [] "missing" (.str "x") none 0) "missing" .null false 1000000).1 = .str "x" :=
  get_save_default_spec [] "missing" (.str "x") 0 1000000 rfl

/-- C9: a stored `null` is distinguishable from an absent key: after
`put(k, null)` with no TTL, `get(k, default=D)` returns `null`, not `D`,
for every non-null default `D` (the stored text is the non-empty wrapper
object, so the absence branch is not taken). -/
theorem put_null_get_spec (st : List Row) (k : String) (now t : Int)
    (D : Json) (hD : D ≠ Json.null) :
    (KV.get (KV.put st k .null none now) k D false t).1 = Json.null ∧
    (KV.get (KV.put st k .null none now) k D false t).1 ≠ D := by
  have h1 : (KV.get (KV.put st k .null none now) k D false t).1 = Json.null := by
    rw [get_put]
    simp [putExp, liveAt]
  exact ⟨h1, by rw [h1]; exact fun h => hD h.symm⟩

theorem put_null_get_spec_witness :
    (.str "d" : Json) ≠ Json.null ∧
    (KV.get (KV.put [] "k" .null none 0) "k" (.str "d") false 99).1 = Json.null :=
  ⟨(fun h => nomatch h),
   (put_null_get_spec [] "k" 0 99 (.str "d") (fun h => nomatch h)).1⟩

/-- C10: `put` (or `put_cached`) with `ttl_seconds=0` stores the entry with
no expiry at all (Python truthiness of `0` takes the no-TTL branch), so the
entry is returned by `get` and by `get_partial` at every later time. -/
theorem put_zero_ttl_spec (st cache : List Row) (k p : String) (v : Json)
    (now t : Int) (hp : p.data.isPrefixOf k.data = true) :
    (KV.get (KV.put st k v (some 0) now) k .null false t).1 = v ∧
    (k, v) ∈ KV.get_partial (KV.put st k v (some 0) now) p t ∧
    KV.put_cached cache k v (some 0) now = cache ++ [⟨k, KV.encode_value v, none⟩] := by
  have hexp : putExp (some 0) now = none := rfl
  refine ⟨?_, ?_, ?_⟩
  · rw [get_put, hexp]
    simp [liveAt]
  · unfold KV.get_partial
    apply List.mem_map.mpr
    refine ⟨⟨k, KV.encode_value v, none⟩, ?_, by simp [decode_encode]⟩
    unfold KV.get_partial_rows
    apply (List.perm_insertionSort
      (fun a b : Row => dumps a.value ≤ dumps b.value) _).mem_iff.mpr
    apply List.mem_filter.mpr
    constructor
    · simp [KV.put, KV.insertOrReplace, hexp]
    · simp [rowLike, liveAt, likeMatch_of_prefix _ _ hp]
  · rfl

theorem put_zero_ttl_spec_witness :
    (KV.get (KV.put [] "ab" (.int 7) (some 0) 0) "ab" .null false 999).1 = .int 7 ∧
    ("ab", Json.int 7) ∈ KV.get_partial (KV.put [] "ab" (.int 7) (some 0) 0) "a" 999 ∧
    KV.put_cached [] "ab" (.int 7) (some 0) 0 = [] ++ [⟨"ab", KV.encode_value (.int 7), none⟩] :=
  put_zero_ttl_spec [] [] "ab" "a" (.int 7) 0 999 (by decide)

/-- C6 counterexample: with the single row keyed `"A"`, `get_partial("a")`
returns that row even though `"A"` does not start with `"a"` — SQLite's
default `LIKE` is ASCII-case-insensitive, so the result is not "exactly the
entries whose key starts with the prefix". -/
theorem get_partial_like_cex :
    KV.get_partial [⟨"A", KV.encode_value (.int 1), none⟩] "a" 0
      = [("A", Json.int 1)] ∧
    ("a".data.isPrefixOf "A".data) = false := ⟨rfl, rfl⟩

/-- C6 amended: `get_partial(p)` returns exactly the unexpired rows whose
key matches `p || '%'` under SQLite's default `LIKE` (ASCII-case-insensitive,
`%`/`_` in `p` acting as wildcards) — a superset of the keys that literally
start with `p` — ordered by the serialized value text, and hence the empty
list when no row matches. -/
theorem get_partial_spec (st : List Row) (p : String) (now : Int) :
    KV.get_partial st p now
      = (KV.get_partial_rows st p now).map (fun r => (r.key, KV.decode_value r.value)) ∧
    (KV.get_partial_rows st p now).Perm
      (st.filter (fun r => rowLike p r && liveAt now r.ttl)) ∧
    List.Sorted (fun a b : Row => dumps a.value ≤ dumps b.value)
      (KV.get_partial_rows st p now) := by
  refine ⟨rfl, ?_, ?_⟩
  · unfold KV.get_partial_rows
    exact List.perm_insertionSort _ _
  · unfold KV.get_partial_rows
    exact List.sorted_insertionSort _ _

/-- C7 counterexample: `delete_partial("a")` removes the row keyed `"A"`
even though `"A"` does not start with `"a"` (case-insensitive `LIKE`), so
the deletion is not restricted to keys starting with the prefix. -/
theorem delete_partial_like_cex :
    KV.delete_partial [⟨"A", KV.encode_value (.int 1), none⟩] "a" = [] ∧
    ("a".data.isPrefixOf "A".data) = false := ⟨rfl, rfl⟩

/-- C7 amended: `delete_partial(p)` removes exactly the rows (expired or
not) whose key matches `p || '%'` under SQLite's default `LIKE` — a superset
of the keys literally starting with `p` — leaves every other row unchanged,
and is a no-op without error when no key matches. -/
theorem delete_partial_spec (st : List Row) (p : String) :
    (∀ r : Row, r ∈ KV.delete_partial st p ↔ r ∈ st ∧ rowLike p r = false) ∧
    ((∀ r ∈ st, rowLike p r = false) → KV.delete_partial st p = st) := by
  constructor
  · intro r
    simp [ KV.delete_partial, List.mem_filter]
  · intro h
    unfold KV.delete_partial
    exact List.filter_eq_self.mpr (fun a ha => by simp [h a ha])

theorem delete_partial_spec_witness :
    (∀ r : Row, r ∈ KV.delete_partial [⟨"b", KV.encode_value .null, none⟩] "a" ↔
      r ∈ [⟨"b", KV.encode_value .null, none⟩] ∧ rowLike "a" r = false) ∧
    KV.delete_partial [⟨"b", KV.encode_value .null, none⟩] "a"
      = [⟨"b", KV.encode_value .null, none⟩] := by
  have h := delete_partial_spec [⟨"b", KV.encode_value .null, none⟩] "a"
  refine ⟨h.1, h.2 ?_⟩
  intro r hr
  rw [List.mem_singleton.mp hr]
  rfl

/-- C5: `commit_cached` is safe to call repeatedly: with an empty buffer it
is a no-op producing no error and no writes; on success it applies every
buffered triple in order and clears the buffer, so a second flush writes
nothing; and when the transaction fails the buffer is left intact and the
table is unchanged. -/
theorem commit_cached_spec (ok ok2 : Bool) (st cache : List Row)
    (h : cache ≠ []) :
    KV.commit_cached ok st [] = (none, st, []) ∧
    KV.commit_cached true st cache = (none, cache.foldl insertOrReplace st, []) ∧
    KV.commit_cached ok2 (cache.foldl insertOrReplace st) []
      = (none, cache.foldl insertOrReplace st, []) ∧
    KV.commit_cached false st cache = (some .storageWriteError, st, cache) := by
  have he : cache.isEmpty = false := by
    cases cache
    · exact absurd rfl h
    · rfl
  refine ⟨rfl, ?_, rfl, ?_⟩
  · simp [KV.commit_cached, he]
  · simp [KV.commit_cached, he]

theorem commit_cached_spec_witness :
    KV.commit_cached true [] [] = (none, [], []) ∧
    KV.commit_cached true [] [⟨"k", KV.encode_value .null, none⟩]
      = (none, [⟨"k", KV.encode_value .null, none⟩].foldl insertOrReplace [], []) ∧
    KV.commit_cached false ([⟨"k", KV.encode_value .null, none⟩].foldl insertOrReplace []) []
      = (none, [⟨"k", KV.encode_value .null, none⟩].foldl insertOrReplace [], []) ∧
    KV.commit_cached false [] [⟨"k", KV.encode_value .null, none⟩]
      = (some .storageWriteError, [], [⟨"k", KV.encode_value .null, none⟩]) :=
  commit_cached_spec true false [] [⟨"k", KV.encode_value .null, none⟩] (by simp)

/-- C2 counterexample: on a cache miss with a result `json.dumps` cannot
serialize, the wrapper raises (the serialization error from `kv.put`
propagates — there is no exception handler), so the caller never receives
the computed result. -/
theorem memoize_unserializable_cex :
    memoizeCall "f" "a" (.nonjson 0) 60 0 [] = .error .serializationError := rfl

/-- C2 amended: when a cache-miss result cannot be serialized, the wrapper
propagates the serialization error instead of returning the computed result
(caching failure does mask the successful computation); when the result is
serializable it is cached and returned. -/
theorem memoize_unserializable_spec (fnKey argKey : String) (n : Nat)
    (j : Json) (s now : Int) (st : List Row)
    (hmiss : (KV.get st (memoKey fnKey argKey) .null false now).1 = .null) :
    memoizeCall fnKey argKey (.nonjson n) s now st = .error .serializationError ∧
    memoizeCall fnKey argKey (.js j) s now st
      = .ok (.js j, true, KV.put st (memoKey fnKey argKey) j (some s) now) := by
  constructor
  · simp only [memoizeCall]
    rw [hmiss]
  · simp only [memoizeCall]
    rw [hmiss]

theorem memoize_unserializable_spec_witness :
    memoizeCall "f" "a" (.nonjson 3) 60 0 [] = .error .serializationError ∧
    memoizeCall "f" "a" (.js (.int 5)) 60 0 []
      = .ok (.js (.int 5), true, KV.put [] (memoKey "f" "a") (.int 5) (some 60) 0) :=
  memoize_unserializable_spec "f" "a" 3 (.int 5) 60 0 [] rfl

/-- C4 counterexample: a memoized function whose value is `null` is invoked
again on the second call with identical arguments well within the TTL — the
wrapper's `if response is not None` treats the cached `null` as a miss — so
"two consecutive identical calls within the TTL invoke F exactly once,
whatever value F returns" fails. -/
theorem memoize_null_result_cex :
    memoizeCall "f" "a" (.js .null) 60 0 [] =
      .ok (.js .null, true, [⟨"memoize.f.a", KV.encode_value .null, some 60⟩]) ∧
    memoizeCall "f" "a" (.js .null) 60 1
        [⟨"memoize.f.a", KV.encode_value .null, some 60⟩] =
      .ok (.js .null, true, [⟨"memoize.f.a", KV.encode_value .null, some 61⟩]) :=
  ⟨rfl, rfl⟩

/-- C4 amended: for a wrapped function whose (serializable) return value is
not `null`, a first call on a cache miss invokes the function and stores the
result, a second call with identical arguments within the TTL is served from
the cache without invoking the function, and a call with different arguments
(a different argument hash, also a miss) invokes the function again; a
`null` return value is re-invoked on every call. -/
theorem memoize_hit_miss_spec (fnKey argKey argKey2 : String) (j j2 : Json)
    (s now1 now2 : Int) (st : List Row)
    (hj : j ≠ Json.null)
    (hs : s ≠ 0)
    (hlive : now2 < now1 + s)
    (hmiss : (KV.get st (memoKey fnKey argKey) .null false now1).1 = .null)
    (hdiff : argKey2 ≠ argKey)
    (hmiss2 : (KV.get st (memoKey fnKey argKey2) .null false now2).1 = .null) :
    memoizeCall fnKey argKey (.js j) s now1 st
      = .ok (.js j, true, KV.put st (memoKey fnKey argKey) j (some s) now1) ∧
    memoizeCall fnKey argKey (.js j) s now2
        (KV.put st (memoKey fnKey argKey) j (some s) now1)
      = .ok (.js j, false, KV.put st (memoKey fnKey argKey) j (some s) now1) ∧
    memoizeCall fnKey argKey2 (.js j2) s now2
        (KV.put st (memoKey fnKey argKey) j (some s) now1)
      = .ok (.js j2, true,
          KV.put (KV.put st (memoKey fnKey argKey) j (some s) now1)
            (memoKey fnKey argKey2) j2 (some s) now2) := by
  have hkne : memoKey fnKey argKey2 ≠ memoKey fnKey argKey := by
    intro h
    exact hdiff (string_append_cancel_left ("memoize." ++ fnKey ++ ".") argKey2 argKey h)
  have h2 : (KV.get (KV.put st (memoKey fnKey argKey) j (some s) now1)
      (memoKey fnKey argKey) .null false now2).1 = j := by
    rw [get_put, putExp_pos s now1 hs]
    rw [show liveAt now2 (some (now1 + s)) = true by simp [liveAt]; omega]
    simp
  have h3 : (KV.get (KV.put st (memoKey fnKey argKey) j (some s) now1)
      (memoKey fnKey argKey2) .null false now2).1 = Json.null := by
    rw [get_other_of_put st (memoKey fnKey argKey) (memoKey fnKey argKey2) j
      (some s) now1 now2 .null hkne]
    exact hmiss2
  refine ⟨?_, ?_, ?_⟩
  · simp only [memoizeCall]
    rw [hmiss]
  · simp only [memoizeCall]
    rw [h2]
    cases j with
    | null => exact absurd rfl hj
    | bool b => rfl
    | int n => rfl
    | str s => rfl
    | arr xs => rfl
    | obj fs => rfl
  · simp only [memoizeCall]
    rw [h3]

theorem memoize_hit_miss_spec_witness :
    memoizeCall "f" "a" (.js (.int 5)) 60 0 []
      = .ok (.js (.int 5), true, KV.put [] (memoKey "f" "a") (.int 5) (some 60) 0) ∧
    memoizeCall "f" "a" (.js (.int 5)) 60 1
        (KV.put [] (memoKey "f" "a") (.int 5) (some 60) 0)
      = .ok (.js (.int 5), false, KV.put [] (memoKey "f" "a") (.int 5) (some 60) 0) ∧
    memoizeCall "f" "b" (.js (.int 9)) 60 1
        (KV.put [] (memoKey "f" "a") (.int 5) (some 60) 0)
      = .ok (.js (.int 9), true,
          KV.put (KV.put [] (memoKey "f" "a") (.int 5) (some 60) 0)
            (memoKey "f" "b") (.int 9) (some 60) 1) :=
  memoize_hit_miss_spec "f" "a" "b" (.int 5) (.int 9) 60 0 1 []
    (fun h => nomatch h) (by norm_num) (by norm_num) rfl
    (fun h => nomatch (congrArg String.data h)) rfl
